import Mathlib

/-!
Verification of the TARIC scraper core (main.go) against its specification.

The development shallowly embeds the three core components of the program:

* the retrying, rate-limited request client `makeAPIRequest` (main.go lines
  59-101), embedded as `requestLoop` over an abstract transport that yields
  the outcome of each attempt;
* the recursive tree expander `findDeclarableCommodities` (main.go lines
  103-140), embedded as the worklist function `expandNodes` over a finite
  association list from node codes to fetch outcomes — a faithful
  first-order presentation of the depth-first recursion in which the
  explicit stack replaces the call stack and the `visited` set and the
  accumulated entry list are threaded exactly as the Go code threads its
  `visited` map and `finalEntries` slice;
* the aggregation stage of `main` (lines 249-260): first-wins
  deduplication by code through a `seen` set followed by sorting with the
  comparator `Code < Code`, embedded as `dedupFirstWins` and
  `sortEntries`;
* the chapter-id derivation of `main` (lines 174-177), whose `[:2]` slice
  panics on identifiers shorter than two characters, embedded as the total
  function `deriveChapterIDs` whose `none` branch models the panic.

Sleeps and attempt counts of the request client are recorded in the
result so that the retry/backoff schedule is provable.
-/

namespace Taric

/-- Configuration constant (main.go line 24): retry ceiling of the request client. -/
def maxRetries : Nat := 4

/-- JSON attribute block of a node (main.go struct Attributes, lines 28-32). -/
structure Attributes where
  goodsNomenclatureItemID : String
  description : String
  declarable : Bool
deriving DecidableEq

/-- One JSON node (main.go struct Item, lines 34-38). -/
structure Item where
  id : String
  «type» : String
  attributes : Attributes
deriving DecidableEq

/-- Single-node response: primary node plus included children (main.go lines 40-43). -/
structure APIResponse where
  data : Item
  included : List Item
deriving DecidableEq

/-- Output record (main.go struct TaricEntry, lines 49-52). -/
structure TaricEntry where
  code : String
  description : String
deriving DecidableEq

/- ## Request client (makeAPIRequest, main.go lines 59-101) -/

/-- Outcome of one HTTP attempt, as seen by the retry loop: request
construction failure (line 67), network-level failure of `httpClient.Do`
(line 73), or a response with a status code, whose body may or may not be
readable by `io.ReadAll` (line 93). -/
inductive AttemptOutcome
  | reqError
  | netError
  | resp (status : Nat) (readable : Bool) (body : String)
deriving DecidableEq

/-- The error values `makeAPIRequest` can return: request construction
error (line 68), network error (line 74), the retryable-status error
recorded at line 83 (carrying the attempt count and status), the
non-retryable status error of line 90, and the body read error of
line 96. -/
inductive APIError
  | requestBuild
  | network
  | invalidAfter (attempts status : Nat)
  | badStatus (status : Nat)
  | readFailed
deriving DecidableEq

/-- Result of `makeAPIRequest` — the Go pair (body, err) — instrumented
with the number of loop iterations entered and the list of backoff sleeps
(in seconds) performed, so the retry schedule is observable. -/
structure RequestResult where
  body : Option String
  err : Option APIError
  attempts : Nat
  sleeps : List Nat
deriving DecidableEq

/-- The retry loop `for i := 0; i < maxRetries; i++` of main.go lines
63-99, with `remaining = maxRetries - i`. Each iteration waits on the
rate limiter (not modelled: it only delays, never changes control flow),
performs attempt `t i`, and classifies it exactly as lines 66-98:
request-build errors return immediately; network errors sleep `2^i`
seconds and retry; status 429 or `≥ 500` sleeps `2^i` seconds, records
the retryable error of line 83 and retries; any other non-200 status
returns the status-carrying error of line 90 immediately; a 200 response
returns its body, or the read error of line 96 when the body is
unreadable. Falling out of the loop returns the last recorded error
(line 100). -/
def requestLoop (t : Nat → AttemptOutcome) :
    Nat → Nat → Option APIError → List Nat → RequestResult
  | i, 0, prevErr, sleeps => ⟨none, prevErr, i, sleeps⟩
  | i, remaining + 1, _prevErr, sleeps =>
    match t i with
    | .reqError => ⟨none, some .requestBuild, i + 1, sleeps⟩
    | .netError => requestLoop t (i + 1) remaining (some .network) (sleeps ++ [2 ^ i])
    | .resp status readable body =>
      if status == 429 || 500 ≤ status then
        requestLoop t (i + 1) remaining (some (.invalidAfter (i + 1) status))
          (sleeps ++ [2 ^ i])
      else if status != 200 then
        ⟨none, some (.badStatus status), i + 1, sleeps⟩
      else if readable then
        ⟨some body, none, i + 1, sleeps⟩
      else
        ⟨none, some .readFailed, i + 1, sleeps⟩

/-- `makeAPIRequest` (main.go line 59): run the retry loop from attempt 0
with no recorded error and no sleeps performed. -/
def makeAPIRequest (t : Nat → AttemptOutcome) : RequestResult :=
  requestLoop t 0 maxRetries none []

/-- The fake transport of the retry/backoff property: HTTP 429 on exactly
the first two attempts, 200 with body OK from the third attempt on. -/
def transport429twice : Nat → AttemptOutcome :=
  fun i => if i < 2 then .resp 429 true "" else .resp 200 true "OK"

/-- The fake transport that always answers HTTP 500. -/
def transport500 : Nat → AttemptOutcome :=
  fun _ => .resp 500 true ""

/- ## Tree expander (findDeclarableCommodities, main.go lines 103-140) -/

/-- Outcome of fetching and parsing one node: `makeAPIRequest` returned an
error (line 116), `json.Unmarshal` failed (line 121), or a parsed
`APIResponse` is available. -/
inductive FetchOutcome
  | fetchError
  | parseError
  | ok (resp : APIResponse)
deriving DecidableEq

/-- The external API as seen by one run: a finite association list from
node code to the outcome of fetching that node. The request URL of
main.go line 114 is `baseURL/endpointType/code` where the endpoint family
is a function of the code alone (see `endpointType`), so the URL — and
hence the outcome — is determined by the code, and the environment is
keyed by code. A code absent from the list stands for a fetch failure. -/
def APIEnv : Type := List (String × FetchOutcome)

/-- Endpoint family chosen from the identifier's shape (main.go lines
109-112): a 2-character code is looked up under chapters, anything else
under commodities. Only the URL depends on it, so no theorem needs it. -/
def endpointType (commodityCode : String) : String :=
  if commodityCode.length == 2 then "chapters" else "commodities"

/-- Fetch-and-parse one node in the given environment. -/
def fetchNode (env : APIEnv) (code : String) : FetchOutcome :=
  (List.lookup code env).getD .fetchError

/-- The recursion candidates of main.go lines 133-139: every included
node whose kind is commodity or heading, recursed on via its
goods_nomenclature_item_id. -/
def childCodes (resp : APIResponse) : List String :=
  (resp.included.filter fun c => c.«type» == "commodity" || c.«type» == "heading").map
    fun c => c.attributes.goodsNomenclatureItemID

/-- Number of environment keys not yet visited: the termination measure
of the traversal (each successful fetch moves one key into `visited`). -/
def unvisitedKeyCount (env : APIEnv) (visited : List String) : Nat :=
  ((env.map Prod.fst).filter fun k => decide (k ∉ visited)).length

/- The next three lemmas are stated before `expandNodes` because its
termination argument uses them. -/

theorem length_filter_mono {α : Type} (l : List α) (p q : α → Bool)
    (h : ∀ a, p a = true → q a = true) :
    (l.filter p).length ≤ (l.filter q).length :=
  (List.monotone_filter_right l h).length_le

theorem unvisitedKeyCount_cons_le (env : APIEnv) (code : String) (visited : List String) :
    unvisitedKeyCount env (code :: visited) ≤ unvisitedKeyCount env visited := by
  apply length_filter_mono
  intro a ha
  simp only [decide_eq_true_eq] at *
  intro hmem
  exact ha (List.mem_cons_of_mem _ hmem)

theorem fetchNode_ok_mem (env : APIEnv) (code : String) (resp : APIResponse)
    (h : fetchNode env code = .ok resp) : code ∈ env.map Prod.fst := by
  induction env with
  | nil => simp [fetchNode, List.lookup] at h
  | cons kv rest ih =>
    simp only [fetchNode, List.lookup] at h
    by_cases hbeq : code == kv.fst
    · have hc : code = kv.fst := by simpa using hbeq
      simp [hc]
    · have hrest : fetchNode rest code = .ok resp := by
        simpa [fetchNode, hbeq] using h
      exact List.mem_cons_of_mem _ (ih hrest)

theorem unvisitedKeyCount_cons_lt (env : APIEnv) (code : String) (visited : List String)
    (hmem : code ∈ env.map Prod.fst) (hnv : code ∉ visited) :
    unvisitedKeyCount env (code :: visited) < unvisitedKeyCount env visited := by
  unfold unvisitedKeyCount
  have hsplit : ((env.map Prod.fst).filter fun k => decide (k ∉ code :: visited)) =
      (((env.map Prod.fst).filter fun k => decide (k ∉ visited)).filter
        fun k => decide (k ≠ code)) := by
    rw [List.filter_filter]
    apply List.filter_congr
    intro a _
    simp [List.mem_cons, not_or, and_comm]
  rw [hsplit]
  apply List.length_filter_lt_length_iff_exists.mpr
  refine ⟨code, ?_, by simp⟩
  simp only [List.mem_filter, decide_eq_true_eq]
  exact ⟨hmem, hnv⟩

/-- Worklist form of `findDeclarableCommodities` (main.go lines 103-140).
The head of the stack is the node the Go function is currently called on;
the rest of the stack is the pending work of its ancestors' loops over
`response.Included`, in depth-first order. Exactly as in the Go code: a
code already in `visited` returns at once (lines 104-106); otherwise the
code is marked visited (line 107) and fetched; a fetch error (line 117)
or a JSON parse error (line 123) abandons only this node; on success a
declarable primary node appends one entry built from its
goods_nomenclature_item_id and description (lines 126-131), and the
commodity/heading children are expanded with the same visited set
(lines 133-139). Returns the final visited set and entry list. -/
def expandNodes (env : APIEnv) (stack visited : List String) (entries : List TaricEntry) :
    List String × List TaricEntry :=
  match stack with
  | [] => (visited, entries)
  | code :: rest =>
    if code ∈ visited then
      expandNodes env rest visited entries
    else
      match hf : fetchNode env code with
      | .fetchError => expandNodes env rest (code :: visited) entries
      | .parseError => expandNodes env rest (code :: visited) entries
      | .ok resp =>
        expandNodes env (childCodes resp ++ rest) (code :: visited)
          (if resp.data.attributes.declarable then
            entries ++ [{ code := resp.data.attributes.goodsNomenclatureItemID,
                          description := resp.data.attributes.description }]
          else entries)
termination_by (unvisitedKeyCount env visited, stack.length)
decreasing_by
  · apply Prod.Lex.right
    simp
  · rcases Nat.lt_or_eq_of_le (unvisitedKeyCount_cons_le env code visited) with hlt | heq
    · exact Prod.Lex.left _ _ hlt
    · rw [heq]
      apply Prod.Lex.right
      simp
  · rcases Nat.lt_or_eq_of_le (unvisitedKeyCount_cons_le env code visited) with hlt | heq
    · exact Prod.Lex.left _ _ hlt
    · rw [heq]
      apply Prod.Lex.right
      simp
  · exact Prod.Lex.left _ _
      (unvisitedKeyCount_cons_lt env code visited (fetchNode_ok_mem env code resp hf)
        (by assumption))

/-- `findDeclarableCommodities(commodityCode, visited, finalEntries)`:
one call of the Go function is the worklist run whose initial stack holds
just that code. -/
def findDeclarableCommodities (env : APIEnv) (commodityCode : String)
    (visited : List String) (entries : List TaricEntry) :
    List String × List TaricEntry :=
  expandNodes env [commodityCode] visited entries

/-- `processChapter` (main.go lines 143-148): run one root with a fresh
visited set and an empty entry list. -/
def processChapter (env : APIEnv) (chapterID : String) : List TaricEntry :=
  (findDeclarableCommodities env chapterID [] []).2

/- ## Result aggregation (main.go lines 249-260) -/

/-- The deduplication loop of main.go lines 249-256: walk the collected
entries, keeping an entry only when its code has not been seen, and
recording each kept code in `seen`. First occurrence wins. -/
def dedupFirstWins : List TaricEntry → List String → List TaricEntry
  | [], _ => []
  | e :: rest, seen =>
    if e.code ∈ seen then dedupFirstWins rest seen
    else e :: dedupFirstWins rest (e.code :: seen)

/-- `uniqueEntries` (main.go line 250): deduplicate starting from an
empty seen set. -/
def uniqueEntries (l : List TaricEntry) : List TaricEntry :=
  dedupFirstWins l []

/-- Order underlying the sort of main.go lines 258-260, whose comparator
is the strict `Code < Code`; a comparison sort with that comparator
produces a permutation that is non-decreasing under this relation. -/
def entryLE (a b : TaricEntry) : Prop :=
  a.code ≤ b.code

instance : DecidableRel entryLE :=
  fun a b => inferInstanceAs (Decidable (a.code ≤ b.code))

instance : IsTotal TaricEntry entryLE :=
  ⟨fun a b => le_total a.code b.code⟩

instance : IsTrans TaricEntry entryLE :=
  ⟨fun _ _ _ hab hbc => le_trans hab hbc⟩

/-- The sort of main.go lines 258-260. `sort.Slice` guarantees exactly a
permutation ordered by the supplied comparator; since it is applied to
`uniqueEntries`, whose codes are pairwise distinct, that permutation is
unique and any comparison sort computes it. -/
def sortEntries (l : List TaricEntry) : List TaricEntry :=
  List.insertionSort entryLE l

/-- The whole aggregation stage: deduplicate by code, then sort by code. -/
def aggregateEntries (l : List TaricEntry) : List TaricEntry :=
  sortEntries (uniqueEntries l)

/- ## Chapter-id derivation (main.go lines 174-177) -/

/-- The loop deriving each chapter root identifier by the slice
`chap.Attributes.GoodsNomenclatureItemID[:2]`. The slice panics when the
identifier is shorter than two characters; the `none` branch of this
total embedding is that panic. -/
def deriveChapterIDs : List Item → Option (List String)
  | [] => some []
  | it :: rest =>
    if 2 ≤ it.attributes.goodsNomenclatureItemID.length then
      (deriveChapterIDs rest).map
        fun ids => it.attributes.goodsNomenclatureItemID.take 2 :: ids
    else
      none

/- ## Concrete fixtures used by the claims -/

/-- Node A of the synthetic cyclic graph: declarable, includes a
commodity reference to B. -/
def refA : Item :=
  { id := "A", «type» := "commodity",
    attributes := { goodsNomenclatureItemID := "A", description := "node A",
                    declarable := true } }

/-- Node B of the synthetic cyclic graph: declarable, includes a
commodity reference back to A. -/
def refB : Item :=
  { id := "B", «type» := "commodity",
    attributes := { goodsNomenclatureItemID := "B", description := "node B",
                    declarable := true } }

/-- The cyclic environment: A references B and B references A. -/
def cycleEnv : APIEnv :=
  [("A", .ok { data := refA, included := [refB] }),
   ("B", .ok { data := refB, included := [refA] })]

/-- A declarable chapter node whose goods_nomenclature_item_id is empty. -/
def emptyIdNode : Item :=
  { id := "x", «type» := "chapter",
    attributes := { goodsNomenclatureItemID := "", description := "no id",
                    declarable := true } }

/-- An environment whose single node is declarable but carries an empty
goods_nomenclature_item_id. -/
def emptyIdEnv : APIEnv :=
  [("01", .ok { data := emptyIdNode, included := [] })]

/-- A declarable chapter node with a full 10-digit item id. -/
def goodNode : Item :=
  { id := "x", «type» := "chapter",
    attributes := { goodsNomenclatureItemID := "0100000000", description := "good",
                    declarable := true } }

/-- An environment whose single node is declarable with a full 10-digit
item id. -/
def goodEnv : APIEnv :=
  [("01", .ok { data := goodNode, included := [] })]

/-- A chapter-list item with an empty goods_nomenclature_item_id, on
which the `[:2]` slice is out of bounds. -/
def emptyIdItem : Item :=
  { id := "x", «type» := "chapter",
    attributes := { goodsNomenclatureItemID := "", description := "no id",
                    declarable := false } }

/- ## Step equations of the tree expander -/

theorem expandNodes_nil (env : APIEnv) (visited : List String) (entries : List TaricEntry) :
    expandNodes env [] visited entries = (visited, entries) := by
  simp [expandNodes]

theorem expandNodes_visited (env : APIEnv) (code : String) (rest visited : List String)
    (entries : List TaricEntry) (h : code ∈ visited) :
    expandNodes env (code :: rest) visited entries =
      expandNodes env rest visited entries := by
  conv_lhs => rw [expandNodes]
  simp [h]

theorem expandNodes_fetchError (env : APIEnv) (code : String) (rest visited : List String)
    (entries : List TaricEntry) (hnv : code ∉ visited)
    (hf : fetchNode env code = .fetchError) :
    expandNodes env (code :: rest) visited entries =
      expandNodes env rest (code :: visited) entries := by
  conv_lhs => rw [expandNodes]
  rw [if_neg hnv]
  split <;> simp_all

theorem expandNodes_parseError (env : APIEnv) (code : String) (rest visited : List String)
    (entries : List TaricEntry) (hnv : code ∉ visited)
    (hf : fetchNode env code = .parseError) :
    expandNodes env (code :: rest) visited entries =
      expandNodes env rest (code :: visited) entries := by
  conv_lhs => rw [expandNodes]
  rw [if_neg hnv]
  split <;> simp_all

theorem expandNodes_ok (env : APIEnv) (code : String) (rest visited : List String)
    (entries : List TaricEntry) (resp : APIResponse) (hnv : code ∉ visited)
    (hf : fetchNode env code = .ok resp) :
    expandNodes env (code :: rest) visited entries =
      expandNodes env (childCodes resp ++ rest) (code :: visited)
        (if resp.data.attributes.declarable then
          entries ++ [{ code := resp.data.attributes.goodsNomenclatureItemID,
                        description := resp.data.attributes.description }]
        else entries) := by
  conv_lhs => rw [expandNodes]
  rw [if_neg hnv]
  split <;> simp_all

/- ## Traversal invariants -/

/-- A node code enters the visited set at most once: if the initial
visited set has no duplicates, neither has the final one. -/
theorem expandNodes_visited_nodup (env : APIEnv) (stack visited : List String)
    (entries : List TaricEntry) :
    visited.Nodup → (expandNodes env stack visited entries).1.Nodup := by
  induction stack, visited, entries using expandNodes.induct env with
  | case1 v e =>
    intro h
    simpa [expandNodes_nil] using h
  | case2 v e code rest hmem ih =>
    intro h
    rw [expandNodes_visited env code rest v e hmem]
    exact ih h
  | case3 v e code rest hnv hf ih =>
    intro h
    rw [expandNodes_fetchError env code rest v e hnv hf]
    exact ih (List.nodup_cons.mpr ⟨hnv, h⟩)
  | case4 v e code rest hnv hf ih =>
    intro h
    rw [expandNodes_parseError env code rest v e hnv hf]
    exact ih (List.nodup_cons.mpr ⟨hnv, h⟩)
  | case5 v e code rest hnv resp hf ih =>
    intro h
    rw [expandNodes_ok env code rest v e resp hnv hf]
    exact ih (List.nodup_cons.mpr ⟨hnv, h⟩)

/-- The entry list only grows: whatever was accumulated before a call is
a prefix of the result, unchanged. -/
theorem expandNodes_entries_prefix (env : APIEnv) (stack visited : List String)
    (entries : List TaricEntry) :
    ∃ tail, (expandNodes env stack visited entries).2 = entries ++ tail := by
  induction stack, visited, entries using expandNodes.induct env with
  | case1 v e =>
    exact ⟨[], by simp [expandNodes_nil]⟩
  | case2 v e code rest hmem ih =>
    obtain ⟨t, ht⟩ := ih
    exact ⟨t, by rw [expandNodes_visited env code rest v e hmem]; exact ht⟩
  | case3 v e code rest hnv hf ih =>
    obtain ⟨t, ht⟩ := ih
    exact ⟨t, by rw [expandNodes_fetchError env code rest v e hnv hf]; exact ht⟩
  | case4 v e code rest hnv hf ih =>
    obtain ⟨t, ht⟩ := ih
    exact ⟨t, by rw [expandNodes_parseError env code rest v e hnv hf]; exact ht⟩
  | case5 v e code rest hnv resp hf ih =>
    rw [expandNodes_ok env code rest v e resp hnv hf]
    by_cases hd : resp.data.attributes.declarable = true
    · simp only [hd, dite_true, if_true] at ih ⊢
      obtain ⟨t, ht⟩ := ih
      refine ⟨{ code := resp.data.attributes.goodsNomenclatureItemID,
                description := resp.data.attributes.description } :: t, ?_⟩
      rw [ht]
      simp
    · simp only [hd, dite_false, if_false] at ih ⊢
      exact ih

/- ## Aggregation lemmas -/

/-- Every entry kept by the deduplication loop has a code outside the
seen set, and is the first entry of the input bearing its code. -/
theorem dedupFirstWins_spec (l : List TaricEntry) :
    ∀ seen : List String, ∀ e ∈ dedupFirstWins l seen,
      e.code ∉ seen ∧ l.find? (fun x => x.code == e.code) = some e := by
  induction l with
  | nil =>
    intro seen e he
    simp [dedupFirstWins] at he
  | cons a rest ih =>
    intro seen e he
    by_cases hs : a.code ∈ seen
    · rw [dedupFirstWins, if_pos hs] at he
      obtain ⟨h1, h2⟩ := ih seen e he
      have hne : (a.code == e.code) = false := by
        simp only [beq_eq_false_iff_ne, ne_eq]
        intro hh
        exact h1 (hh ▸ hs)
      refine ⟨h1, ?_⟩
      rw [List.find?_cons_of_neg _ (by simp [hne]), h2]
    · rw [dedupFirstWins, if_neg hs] at he
      rcases List.mem_cons.mp he with rfl | htail
      · refine ⟨hs, ?_⟩
        rw [List.find?_cons_of_pos _ (by simp)]
      · obtain ⟨h1, h2⟩ := ih (a.code :: seen) e htail
        have hna : e.code ≠ a.code := fun hh => h1 (by simp [hh])
        refine ⟨fun hmem => h1 (List.mem_cons_of_mem _ hmem), ?_⟩
        rw [List.find?_cons_of_neg _ (by simp [hna.symm]), h2]

/-- No code of the input is lost: each is either already seen or
represented in the deduplicated output. -/
theorem dedupFirstWins_covers (l : List TaricEntry) :
    ∀ seen : List String, ∀ e ∈ l,
      e.code ∈ seen ∨ ∃ x, x ∈ dedupFirstWins l seen ∧ x.code = e.code := by
  induction l with
  | nil =>
    intro seen e he
    simp at he
  | cons a rest ih =>
    intro seen e he
    by_cases hs : a.code ∈ seen
    · rcases List.mem_cons.mp he with rfl | htail
      · exact Or.inl hs
      · rcases ih seen e htail with h | ⟨x, hx, hxc⟩
        · exact Or.inl h
        · exact Or.inr ⟨x, by rw [dedupFirstWins, if_pos hs]; exact hx, hxc⟩
    · rcases List.mem_cons.mp he with rfl | htail
      · exact Or.inr ⟨e, by rw [dedupFirstWins, if_neg hs]; exact List.mem_cons_self e _, rfl⟩
      · rcases ih (a.code :: seen) e htail with h | ⟨x, hx, hxc⟩
        · rcases List.mem_cons.mp h with heq | hseen
          · exact Or.inr ⟨a, by rw [dedupFirstWins, if_neg hs]; exact List.mem_cons_self a _,
              heq.symm⟩
          · exact Or.inl hseen
        · exact Or.inr ⟨x, by rw [dedupFirstWins, if_neg hs]; exact List.mem_cons_of_mem a hx,
            hxc⟩

/-- The deduplicated output carries pairwise distinct codes. -/
theorem dedupFirstWins_codes_nodup (l : List TaricEntry) :
    ∀ seen : List String, ((dedupFirstWins l seen).map TaricEntry.code).Nodup := by
  induction l with
  | nil =>
    intro seen
    simp [dedupFirstWins]
  | cons a rest ih =>
    intro seen
    by_cases hs : a.code ∈ seen
    · rw [dedupFirstWins, if_pos hs]
      exact ih seen
    · rw [dedupFirstWins, if_neg hs]
      simp only [List.map_cons, List.nodup_cons]
      constructor
      · intro hmem
        obtain ⟨x, hx, hxc⟩ := List.mem_map.mp hmem
        have := (dedupFirstWins_spec rest (a.code :: seen) x hx).1
        exact this (by simp [hxc])
      · exact ih (a.code :: seen)

/-- Deduplication is the identity on a list whose codes are already
pairwise distinct and disjoint from the seen set. -/
theorem dedupFirstWins_eq_self (l : List TaricEntry) :
    ∀ seen : List String, (l.map TaricEntry.code).Nodup →
      (∀ e ∈ l, e.code ∉ seen) → dedupFirstWins l seen = l := by
  induction l with
  | nil =>
    intro seen _ _
    rfl
  | cons a rest ih =>
    intro seen hnd hdisj
    have hs : a.code ∉ seen := hdisj a (List.mem_cons_self a rest)
    rw [dedupFirstWins, if_neg hs]
    congr 1
    simp only [List.map_cons, List.nodup_cons] at hnd
    apply ih (a.code :: seen) hnd.2
    intro e he
    simp only [List.mem_cons]
    push_neg
    constructor
    · intro hec
      exact hnd.1 (hec ▸ List.mem_map_of_mem TaricEntry.code he)
    · exact hdisj e (List.mem_cons_of_mem a he)

/-- Sorting permutes, so the aggregate output keeps its codes pairwise
distinct. -/
theorem aggregateEntries_codes_nodup (l : List TaricEntry) :
    ((aggregateEntries l).map TaricEntry.code).Nodup := by
  have hperm : (aggregateEntries l).Perm (uniqueEntries l) :=
    List.perm_insertionSort entryLE (uniqueEntries l)
  exact (hperm.map TaricEntry.code).nodup_iff.mpr (dedupFirstWins_codes_nodup l [])

/-- The aggregate output is sorted by code. -/
theorem aggregateEntries_sorted (l : List TaricEntry) :
    List.Sorted entryLE (aggregateEntries l) :=
  List.sorted_insertionSort entryLE (uniqueEntries l)

/- ## Claim theorems -/

/-- Claim C1: the tree expander terminates on every node graph, cycles
included, and never expands a node twice. A call on a code already in the
visited set returns immediately with the visited set and the accumulated
entry list unchanged; the final visited set never holds duplicates when
the initial one does not (no identifier is expanded more than once); and
on the cyclic graph in which A references B and B references A, the
traversal from A terminates with exactly one entry for A and one for B.
Termination in general is the totality of `expandNodes`, whose
well-founded measure is the number of unvisited environment keys. -/
theorem findDeclarableCommodities_cycle_safe :
    (∀ (env : APIEnv) (code : String) (visited : List String) (entries : List TaricEntry),
        code ∈ visited →
        findDeclarableCommodities env code visited entries = (visited, entries)) ∧
    (∀ (env : APIEnv) (stack visited : List String) (entries : List TaricEntry),
        visited.Nodup → (expandNodes env stack visited entries).1.Nodup) ∧
    findDeclarableCommodities cycleEnv "A" [] [] =
      (["B", "A"], [⟨"A", "node A"⟩, ⟨"B", "node B"⟩]) := by
  refine ⟨?_, expandNodes_visited_nodup, ?_⟩
  · intro env code visited entries h
    rw [findDeclarableCommodities, expandNodes_visited env code [] visited entries h,
      expandNodes_nil]
  · simp [findDeclarableCommodities, expandNodes, fetchNode, childCodes, cycleEnv, refA, refB,
      List.lookup]

/-- Witness for C1: a call on the already-visited code A returns at once,
leaving the visited set and the (empty) entry list unchanged. -/
theorem findDeclarableCommodities_cycle_safe_witness :
    findDeclarableCommodities cycleEnv "A" ["A"] [] = (["A"], []) :=
  findDeclarableCommodities_cycle_safe.1 cycleEnv "A" ["A"] [] (List.mem_cons_self "A" [])

/-- Claim C2: against the transport answering 429 on exactly the first
two attempts and 200 with body OK on the third, `makeAPIRequest` returns
the 200 body after exactly 3 attempts having slept 1 second and then 2
seconds; against the transport always answering 500 it returns an error
after exactly `maxRetries = 4` attempts (having slept 1, 2, 4 and 8
seconds). -/
theorem makeAPIRequest_retry_backoff :
    makeAPIRequest transport429twice = ⟨some "OK", none, 3, [1, 2]⟩ ∧
    makeAPIRequest transport500 =
      ⟨none, some (.invalidAfter maxRetries 500), maxRetries, [1, 2, 4, 8]⟩ ∧
    maxRetries = 4 :=
  ⟨rfl, rfl, rfl⟩

/-- Claim C3: a fetch failure or a JSON parse failure on a node never
propagates an error — the traversal simply continues with the remaining
work, dropping only that node's subtree — and every entry accumulated
before any call survives unchanged as a prefix of the result. -/
theorem expandNodes_absorbs_failures :
    (∀ (env : APIEnv) (code : String) (rest visited : List String)
        (entries : List TaricEntry), code ∉ visited → fetchNode env code = .fetchError →
        expandNodes env (code :: rest) visited entries =
          expandNodes env rest (code :: visited) entries) ∧
    (∀ (env : APIEnv) (code : String) (rest visited : List String)
        (entries : List TaricEntry), code ∉ visited → fetchNode env code = .parseError →
        expandNodes env (code :: rest) visited entries =
          expandNodes env rest (code :: visited) entries) ∧
    (∀ (env : APIEnv) (stack visited : List String) (entries : List TaricEntry),
        ∃ tail, (expandNodes env stack visited entries).2 = entries ++ tail) :=
  ⟨expandNodes_fetchError, expandNodes_parseError, expandNodes_entries_prefix⟩

/-- Witness for C3: in the empty environment the fetch of X fails and the
traversal continues with the rest of the work, error-free. -/
theorem expandNodes_absorbs_failures_witness :
    expandNodes [] ["X"] [] [] = expandNodes [] [] ["X"] [] :=
  expandNodes_absorbs_failures.1 [] "X" [] [] [] (by simp) rfl

/-- Counterexample to C4 as stated: the expander performs no
non-emptiness check, so an API response whose declarable primary node
carries an empty goods_nomenclature_item_id yields an Entry whose code is
the empty string. -/
theorem expand_empty_code_counterexample :
    ((findDeclarableCommodities emptyIdEnv "01" [] []).2.map TaricEntry.code) = [""] := by
  simp [findDeclarableCommodities, expandNodes, fetchNode, childCodes, emptyIdEnv, emptyIdNode,
    List.lookup]

/-- Claim C4 (amended): every Entry takes its code verbatim from the
response's goods_nomenclature_item_id, so whenever every declarable
primary node the environment can return has a non-empty
goods_nomenclature_item_id — as every real catalog response has — and the
entries accumulated so far have non-empty codes, every Entry produced by
the tree expander has a non-empty code. -/
theorem expandNodes_nonempty_codes (env : APIEnv) (stack visited : List String)
    (entries : List TaricEntry)
    (henv : ∀ code resp, fetchNode env code = .ok resp →
        resp.data.attributes.declarable = true →
        resp.data.attributes.goodsNomenclatureItemID ≠ "")
    (hentries : ∀ e ∈ entries, e.code ≠ "") :
    ∀ e ∈ (expandNodes env stack visited entries).2, e.code ≠ "" := by
  induction stack, visited, entries using expandNodes.induct env with
  | case1 v e =>
    simpa [expandNodes_nil] using hentries
  | case2 v e code rest hmem ih =>
    rw [expandNodes_visited env code rest v e hmem]
    exact ih hentries
  | case3 v e code rest hnv hf ih =>
    rw [expandNodes_fetchError env code rest v e hnv hf]
    exact ih hentries
  | case4 v e code rest hnv hf ih =>
    rw [expandNodes_parseError env code rest v e hnv hf]
    exact ih hentries
  | case5 v e code rest hnv resp hf ih =>
    rw [expandNodes_ok env code rest v e resp hnv hf]
    by_cases hd : resp.data.attributes.declarable = true
    · simp only [hd, dite_true, if_true] at ih ⊢
      apply ih
      intro x hx
      rcases List.mem_append.mp hx with hx1 | hx2
      · exact hentries x hx1
      · have hxe : x = { code := resp.data.attributes.goodsNomenclatureItemID,
                         description := resp.data.attributes.description } := by
          simpa using hx2
        rw [hxe]
        exact henv code resp hf hd
    · simp only [hd, dite_false, if_false] at ih ⊢
      exact ih hentries

/-- Witness for the amended C4 claim on a concrete well-formed
environment. -/
theorem expandNodes_nonempty_codes_witness :
    (({ code := "0100000000", description := "good" } : TaricEntry)).code ≠ "" := by
  have hmem : ({ code := "0100000000", description := "good" } : TaricEntry) ∈
      (expandNodes goodEnv ["01"] [] []).2 := by
    simp [expandNodes, fetchNode, childCodes, goodEnv, goodNode, List.lookup]
  refine expandNodes_nonempty_codes goodEnv ["01"] [] [] ?_ (by simp) _ hmem
  intro code resp h hd
  simp only [fetchNode, goodEnv, List.lookup] at h
  by_cases hb : code == "01"
  · simp only [hb] at h
    simp at h
    rw [← h]
    simp [goodNode]
  · simp only [hb] at h
    simp [List.lookup] at h

/-- Claim C5: for every input list the aggregator's output is strictly
increasing by code under the string order — adjacent rows are
non-decreasing and never share a code, so at most one Entry per distinct
code survives. -/
theorem aggregateEntries_strictly_increasing (l : List TaricEntry) :
    List.Chain' (fun a b : TaricEntry => a.code < b.code) (aggregateEntries l) := by
  apply List.Pairwise.chain'
  have hs : List.Pairwise entryLE (aggregateEntries l) := aggregateEntries_sorted l
  have hn : List.Pairwise (fun a b : TaricEntry => a.code ≠ b.code) (aggregateEntries l) :=
    List.pairwise_map.mp (aggregateEntries_codes_nodup l)
  exact (hs.and hn).imp fun h => lt_of_le_of_ne h.1 h.2

/-- Claim C6: deduplication retains exactly the first entry seen for each
distinct code — every code of the input is represented in the output, and
each retained entry is the first entry of the input with its code. -/
theorem uniqueEntries_first_wins :
    (∀ (l : List TaricEntry) (e : TaricEntry), e ∈ l →
        ∃ x, x ∈ uniqueEntries l ∧ x.code = e.code) ∧
    (∀ (l : List TaricEntry) (e : TaricEntry), e ∈ uniqueEntries l →
        l.find? (fun x => x.code == e.code) = some e) := by
  constructor
  · intro l e he
    rcases dedupFirstWins_covers l [] e he with h | h
    · simp at h
    · exact h
  · intro l e he
    exact (dedupFirstWins_spec l [] e he).2

/-- Witness for C6: in a two-entry list with a repeated code, the entry
the deduplication keeps for that code is the first of the input. -/
theorem uniqueEntries_first_wins_witness :
    [({ code := "a", description := "first" } : TaricEntry),
     { code := "a", description := "second" }].find?
      (fun x => x.code == ({ code := "a", description := "first" } : TaricEntry).code) =
      some { code := "a", description := "first" } :=
  uniqueEntries_first_wins.2
    [{ code := "a", description := "first" }, { code := "a", description := "second" }]
    { code := "a", description := "first" }
    (by simp [uniqueEntries, dedupFirstWins])

/-- Claim C7: aggregation (first-wins deduplication followed by sorting
by code) is idempotent — applied to its own output it returns that output
unchanged. -/
theorem aggregateEntries_idempotent (l : List TaricEntry) :
    aggregateEntries (aggregateEntries l) = aggregateEntries l := by
  have h1 : uniqueEntries (aggregateEntries l) = aggregateEntries l :=
    dedupFirstWins_eq_self (aggregateEntries l) [] (aggregateEntries_codes_nodup l)
      (by simp)
  show sortEntries (uniqueEntries (aggregateEntries l)) = aggregateEntries l
  rw [h1]
  exact List.Sorted.insertionSort_eq (aggregateEntries_sorted l)

/-- Claim C8: an attempt answered with a status other than 200 that is
neither 429 nor at least 500 makes the request fail immediately — the
loop performs no further attempt and returns an error carrying the
status code. -/
theorem makeAPIRequest_nonretryable_immediate :
    (∀ (t : Nat → AttemptOutcome) (i remaining : Nat) (prevErr : Option APIError)
        (sleeps : List Nat) (status : Nat) (readable : Bool) (body : String),
        t i = .resp status readable body → status ≠ 429 → status < 500 → status ≠ 200 →
        requestLoop t i (remaining + 1) prevErr sleeps =
          ⟨none, some (.badStatus status), i + 1, sleeps⟩) ∧
    (∀ (t : Nat → AttemptOutcome) (status : Nat) (readable : Bool) (body : String),
        t 0 = .resp status readable body → status ≠ 429 → status < 500 → status ≠ 200 →
        makeAPIRequest t = ⟨none, some (.badStatus status), 1, []⟩) := by
  have hloop : ∀ (t : Nat → AttemptOutcome) (i remaining : Nat) (prevErr : Option APIError)
      (sleeps : List Nat) (status : Nat) (readable : Bool) (body : String),
      t i = .resp status readable body → status ≠ 429 → status < 500 → status ≠ 200 →
      requestLoop t i (remaining + 1) prevErr sleeps =
        ⟨none, some (.badStatus status), i + 1, sleeps⟩ := by
    intro t i remaining prevErr sleeps status readable body ht h429 h500 h200
    rw [requestLoop, ht]
    simp [h429, h200, Nat.not_le.mpr h500]
  refine ⟨hloop, ?_⟩
  intro t status readable body ht h429 h500 h200
  show requestLoop t 0 maxRetries none [] = _
  rw [show maxRetries = 3 + 1 from rfl]
  exact hloop t 0 3 none [] status readable body ht h429 h500 h200

/-- Witness for C8 at status 404: the first attempt fails the whole
request at once. -/
theorem makeAPIRequest_nonretryable_immediate_witness :
    requestLoop (fun _ => .resp 404 true "") 0 4 none [] =
      ⟨none, some (.badStatus 404), 1, []⟩ :=
  makeAPIRequest_nonretryable_immediate.1 (fun _ => .resp 404 true "") 0 3 none [] 404 true ""
    rfl (by decide) (by decide) (by decide)

/-- Claim C10: deriving the chapter roots by slicing the first two
characters of each goods_nomenclature_item_id is well defined exactly
under the precondition that every identifier has length at least 2 — then
it returns the list of 2-character prefixes — while any shorter
identifier anywhere in the response reaches the out-of-bounds branch of
the total embedding (the runtime panic of the Go slice). -/
theorem deriveChapterIDs_slice_bounds :
    (∀ items : List Item,
        (∀ it ∈ items, 2 ≤ it.attributes.goodsNomenclatureItemID.length) →
        deriveChapterIDs items =
          some (items.map fun it => it.attributes.goodsNomenclatureItemID.take 2)) ∧
    (∀ (items : List Item) (it : Item), it ∈ items →
        it.attributes.goodsNomenclatureItemID.length < 2 →
        deriveChapterIDs items = none) := by
  constructor
  · intro items h
    induction items with
    | nil => rfl
    | cons a rest ih =>
      have ha : 2 ≤ a.attributes.goodsNomenclatureItemID.length :=
        h a (List.mem_cons_self a rest)
      rw [deriveChapterIDs, if_pos ha, ih fun x hx => h x (List.mem_cons_of_mem a hx)]
      rfl
  · intro items it hmem hshort
    induction items with
    | nil => simp at hmem
    | cons a rest ih =>
      rcases List.mem_cons.mp hmem with rfl | htail
      · rw [deriveChapterIDs, if_neg (by omega)]
      · by_cases ha : 2 ≤ a.attributes.goodsNomenclatureItemID.length
        · rw [deriveChapterIDs, if_pos ha, ih htail]
          rfl
        · rw [deriveChapterIDs, if_neg ha]

/-- Witness for C10: a chapter list holding one item with an empty
identifier reaches the panic branch. -/
theorem deriveChapterIDs_slice_bounds_witness : deriveChapterIDs [emptyIdItem] = none :=
  deriveChapterIDs_slice_bounds.2 [emptyIdItem] emptyIdItem (List.mem_cons_self _ [])
    (by simp [emptyIdItem])

end Taric
